import Mathlib

/-!
Shallow embedding of the serial-link file-transfer program (link_layer.c and
application_layer.c). Bytes are modelled as `Nat` (all values produced by the
code stay below 256); byte arrays are `List Nat`. Each definition mirrors one
C function; the serial port is modelled by explicit byte lists (input stream
consumed by `llread`, frames written returned in the result), and the alarm
timer by an oracle giving the outcome of each acknowledgment wait.
-/

namespace Rcom

/-- Frame delimiter byte (`#define FLAG 0x7E`). -/
def FLAG : Nat := 0x7E

/-- Address byte of frames originated by the transmitter (`A_SENDER`). -/
def A_SENDER : Nat := 0x03

/-- Address byte of frames originated by the receiver (`A_RECEIVER`). -/
def A_RECEIVER : Nat := 0x01

/-- Control byte of RR acknowledging with next-expected bit encoded 0 (`C_RR0`). -/
def C_RR0 : Nat := 0x05

/-- Control byte `C_RR1 = 0x85`. -/
def C_RR1 : Nat := 0x85

/-- Control byte `C_REJ0 = 0x01`. -/
def C_REJ0 : Nat := 0x01

/-- Control byte `C_REJ1 = 0x81`. -/
def C_REJ1 : Nat := 0x81

/-- Retry bound (`#define MAX_RETRIES 3`). -/
def MAX_RETRIES : Nat := 3

/-- Byte stuffing, `stuffData` in link_layer.c: 0x7E becomes 0x7D 0x5E,
0x7D becomes 0x7D 0x5D, any other byte is copied unchanged. -/
def stuffData : List Nat → List Nat
  | [] => []
  | b :: rest =>
    if b = 0x7E then 0x7D :: 0x5E :: stuffData rest
    else if b = 0x7D then 0x7D :: 0x5D :: stuffData rest
    else b :: stuffData rest

/-- Byte destuffing, `destuffData` in link_layer.c: on 0x7D the index is
advanced and, when a byte is still available, 0x5E maps back to 0x7E and any
other byte to 0x7D; a trailing 0x7D with no byte after it emits nothing. -/
def destuffData : List Nat → List Nat
  | [] => []
  | b :: rest =>
    if b = 0x7D then
      match rest with
      | [] => []
      | c :: rest' => (if c = 0x5E then 0x7E else 0x7D) :: destuffData rest'
    else b :: destuffData rest

/-- XOR checksum over a byte list seeded at 0, as computed by the
`bcc2 ^= buf[i]` loops in `llwrite` and `llread`. -/
def bcc2 (l : List Nat) : Nat := l.foldl Nat.xor 0

/-- Claim C5: byte stuffing followed by destuffing is the identity on every
byte sequence. -/
theorem destuff_stuff_id (s : List Nat) : destuffData (stuffData s) = s := by
  induction s with
  | nil => rfl
  | cons b rest ih =>
    by_cases h1 : b = 0x7E
    · subst h1
      simp [stuffData, destuffData, ih]
    · by_cases h2 : b = 0x7D
      · subst h2
        simp [stuffData, destuffData, ih]
      · have hs : stuffData (b :: rest) = b :: stuffData rest := by
          simp [stuffData, h1, h2]
        rw [hs, destuffData.eq_def]
        simp [h2, ih]

/-- Control byte of an I-frame as selected at the top of the `llwrite` loop:
`(sequenceNumber == 0) ? 0x00 : 0x40`. -/
def iControl (seq : Nat) : Nat := if seq = 0 then 0x00 else 0x40

/-- The complete I-frame assembled by `llwrite` into its local `frame` buffer:
header `FLAG A_SENDER control BCC1` at indices 0..3, the stuffed
payload-plus-BCC2 from index 4, and the closing `FLAG` at index
`4 + stuffedSize`. -/
def buildIFrame (seq : Nat) (buf : List Nat) : List Nat :=
  [FLAG, A_SENDER, iControl seq, Nat.xor A_SENDER (iControl seq)]
    ++ stuffData (buf ++ [bcc2 buf]) ++ [FLAG]

/-- Outcome of one acknowledgment wait in `llwrite`: the state machine accepts
the RR for the next sequence, accepts the REJ for the current sequence, or the
alarm fires first. -/
inductive AckOutcome
  | rr
  | rej
  | timeout
deriving DecidableEq

/-- Result of a modelled `llwrite` call: the return value, the sender sequence
bit after the call, and the frames transmitted on the port, in order. -/
structure WriteResult where
  ret : Int
  newSeq : Nat
  sent : List (List Nat)
deriving DecidableEq

/-- The retry loop of `llwrite`. `retries` is the loop counter, `fuel` is
`maxRetries - retries` (the number of loop iterations still permitted by the
`while (retries < MAX_RETRIES)` guard); `oracle k` tells how the wait of the
iteration with `retries = k` ends. On RR the function returns `bufSize` and
toggles the sequence bit; on REJ or timeout it increments `retries`; when the
guard fails it returns -1. -/
def llwriteAux (buf : List Nat) (oracle : Nat → AckOutcome) (seq : Nat) :
    Nat → Nat → WriteResult
  | _, 0 => { ret := -1, newSeq := seq, sent := [] }
  | retries, fuel + 1 =>
    match oracle retries with
    | AckOutcome.rr =>
      { ret := (buf.length : Int), newSeq := Nat.xor seq 1,
        sent := [buildIFrame seq buf] }
    | _ =>
      let r := llwriteAux buf oracle seq (retries + 1) fuel
      { ret := r.ret, newSeq := r.newSeq, sent := buildIFrame seq buf :: r.sent }

/-- One `llwrite` call with retry bound `maxRetries`, starting from sender
sequence bit `seq`. -/
def llwriteModel (maxRetries : Nat) (buf : List Nat) (oracle : Nat → AckOutcome)
    (seq : Nat) : WriteResult :=
  llwriteAux buf oracle seq 0 maxRetries

/-- When no wait ever ends in an accepted RR, every loop iteration retransmits
and the call fails after exactly `fuel` transmissions. -/
theorem llwriteAux_no_rr (buf : List Nat) (oracle : Nat → AckOutcome) (seq : Nat)
    (h : ∀ k, oracle k ≠ AckOutcome.rr) :
    ∀ fuel retries, llwriteAux buf oracle seq retries fuel =
      { ret := -1, newSeq := seq, sent := List.replicate fuel (buildIFrame seq buf) } := by
  intro fuel
  induction fuel with
  | zero => intro retries; rfl
  | succ n ih =>
    intro retries
    cases ho : oracle retries with
    | rr => exact absurd ho (h retries)
    | rej => simp [llwriteAux, ho, ih, List.replicate_succ]
    | timeout => simp [llwriteAux, ho, ih, List.replicate_succ]

/-- Claim C1 (amended): for every positive retry bound N, if every wait ends
in timeout then `llwrite` returns -1, leaves the sequence bit unchanged, and
transmits the I-frame exactly N times. -/
theorem llwrite_all_timeouts_fails_after_n (n : Nat) (buf : List Nat)
    (oracle : Nat → AckOutcome) (seq : Nat) (_hn : 0 < n)
    (h : ∀ k, oracle k = AckOutcome.timeout) :
    (llwriteModel n buf oracle seq).ret = -1 ∧
    (llwriteModel n buf oracle seq).sent.length = n ∧
    (llwriteModel n buf oracle seq).newSeq = seq := by
  have hno : ∀ k, oracle k ≠ AckOutcome.rr := by
    intro k
    rw [h k]
    intro hc
    cases hc
  rw [llwriteModel, llwriteAux_no_rr buf oracle seq hno n 0]
  simp

/-- Witness for `llwrite_all_timeouts_fails_after_n` at N = MAX_RETRIES = 3. -/
theorem llwrite_all_timeouts_fails_after_n_witness :
    (llwriteModel MAX_RETRIES [0x48] (fun _ => AckOutcome.timeout) 0).sent.length
      = MAX_RETRIES :=
  (llwrite_all_timeouts_fails_after_n MAX_RETRIES [0x48]
    (fun _ => AckOutcome.timeout) 0 (by decide) (fun _ => rfl)).2.1

/-- Claim C1 counterexample: with the retry bound N = MAX_RETRIES = 3 and a
channel on which every wait times out, `llwrite` transmits the I-frame exactly
3 times, not N + 1 = 4 times as the claim states. -/
theorem llwrite_three_transmissions_not_four :
    (llwriteModel MAX_RETRIES [0x48] (fun _ => AckOutcome.timeout) 0).ret = -1 ∧
    (llwriteModel MAX_RETRIES [0x48] (fun _ => AckOutcome.timeout) 0).sent.length = 3 ∧
    (llwriteModel MAX_RETRIES [0x48] (fun _ => AckOutcome.timeout) 0).sent.length
      ≠ MAX_RETRIES + 1 := by
  refine ⟨rfl, rfl, ?_⟩
  decide

/-- Wire-format stuffing as the specification words it: each 0x7E is replaced
by the pair 0x7D 0x5E, each 0x7D by the pair 0x7D 0x5D, and any other byte
stands for itself. Written independently of `stuffData` for the refinement
comparison in claim C6. -/
def specStuff (s : List Nat) : List Nat :=
  (s.map fun b =>
    if b = 0x7E then [0x7D, 0x5E]
    else if b = 0x7D then [0x7D, 0x5D]
    else [b]).flatten

/-- Wire format of an I-frame as the specification words it:
`[7E A_TX C (A_TX^C) stuffed(payload || BCC2) 7E]` with C = 0x00 for sequence
bit 0 and C = 0x40 for sequence bit 1, and BCC2 the XOR-reduction of the raw
payload seeded at 0. -/
def specIFrame (seqBit : Nat) (payload : List Nat) : List Nat :=
  let c := if seqBit = 0 then 0x00 else 0x40
  [0x7E, 0x03, c, Nat.xor 0x03 c]
    ++ specStuff (payload ++ [payload.foldl Nat.xor 0]) ++ [0x7E]

/-- The imperative stuffing loop agrees with the specification's per-byte
substitution. -/
theorem stuffData_eq_specStuff (s : List Nat) : stuffData s = specStuff s := by
  induction s with
  | nil => rfl
  | cons b rest ih =>
    by_cases h1 : b = 0x7E
    · subst h1
      simp [stuffData, specStuff] at ih ⊢
      exact ih
    · by_cases h2 : b = 0x7D
      · subst h2
        simp [stuffData, specStuff] at ih ⊢
        exact ih
      · simp [stuffData, specStuff, h1, h2] at ih ⊢
        exact ih

/-- Claim C6: `llwrite` emits exactly the frame
`[7E A_TX C (A_TX^C) stuffed(payload || BCC2) 7E]` with C determined by the
sequence bit; in particular for payload 48 69 with sequence bit 0 the bytes
are exactly 7E 03 00 03 48 69 21 7E. -/
theorem iframe_wire_format (seq : Nat) (buf : List Nat) :
    buildIFrame seq buf = specIFrame seq buf ∧
    buildIFrame 0 [0x48, 0x69] = [0x7E, 0x03, 0x00, 0x03, 0x48, 0x69, 0x21, 0x7E] := by
  constructor
  · simp [buildIFrame, specIFrame, iControl, FLAG, A_SENDER, bcc2,
      stuffData_eq_specStuff]
  · decide

/-- Stuffing at most doubles the length of a byte sequence. -/
theorem stuffData_length_le (s : List Nat) : (stuffData s).length ≤ 2 * s.length := by
  induction s with
  | nil => simp [stuffData]
  | cons b rest ih =>
    by_cases h1 : b = 0x7E
    · subst h1
      simp [stuffData]
      omega
    · by_cases h2 : b = 0x7D
      · subst h2
        simp [stuffData]
        omega
      · simp [stuffData, h1, h2]
        omega

/-- Claim C7 (amended): the complete I-frame occupies at most 2·L + 7 bytes
(4 header bytes, at most 2·(L+1) stuffed bytes for payload plus BCC2, and the
closing flag), not 2·L + 6 as claimed; the bound 2·L + 7 is tight. -/
theorem frame_size_le (seq : Nat) (buf : List Nat) :
    (buildIFrame seq buf).length ≤ 2 * buf.length + 7 := by
  have h := stuffData_length_le (buf ++ [bcc2 buf])
  simp [buildIFrame] at h ⊢
  omega

/-- Claim C7 counterexample: for the one-byte payload 0x7E the frame built by
`llwrite` is 9 bytes long, exceeding the claimed bound 2·1 + 6 = 8; since the
local buffer is declared with 2·bufSize + 6 = 8 bytes, the store of the
closing flag at index 8 is out of bounds. -/
theorem frame_exceeds_claimed_bound :
    (buildIFrame 0 [0x7E]).length = 9 ∧
    ¬((buildIFrame 0 [0x7E]).length ≤ 2 * 1 + 6) := by
  decide

/-- Result of processing one captured frame in `llread`: the return value,
the payload handed to the caller's buffer (`none` when `memcpy` is never
executed), the 5-byte supervisory frame written to the port, and the
expected-sequence bit after the call. -/
structure ReadResult where
  ret : Int
  packet : Option (List Nat)
  sentFrame : List Nat
  newSeq : Nat
deriving DecidableEq

/-- The RR frame built in `llread`, both on accept and on duplicate:
`rr = (expectedSeq == 0) ? C_RR1 : C_RR0` and
`{FLAG, A_RECEIVER, rr, A_RECEIVER ^ rr, FLAG}`. -/
def rrFrame (expectedSeq : Nat) : List Nat :=
  let rr := if expectedSeq = 0 then C_RR1 else C_RR0
  [FLAG, A_RECEIVER, rr, Nat.xor A_RECEIVER rr, FLAG]

/-- The REJ frame built at the `send_rej` label of `llread`:
`rej = (expectedSeq == 0) ? C_REJ0 : C_REJ1`. -/
def rejFrame (expectedSeq : Nat) : List Nat :=
  let rej := if expectedSeq = 0 then C_REJ0 else C_REJ1
  [FLAG, A_RECEIVER, rej, Nat.xor A_RECEIVER rej, FLAG]

/-- Sequence bit extracted from the control byte of a captured frame:
`(control & 0x40) ? 1 : 0` with `control = frame[2]`. -/
def receivedSeqOf (frame : List Nat) : Nat :=
  if Nat.land (frame.getD 2 0) 0x40 ≠ 0 then 1 else 0

/-- The destuffed body of a captured frame: `destuffData` applied to the
`idx - 5` bytes starting at `frame + 4`, that is to everything strictly
between the 4-byte header and the closing flag. -/
def frameBody (frame : List Nat) : List Nat :=
  destuffData ((frame.drop 4).take (frame.length - 5))

/-- Everything `llread` does after the capture loop, on the captured frame
(both delimiting flags included): length check, BCC1 check, duplicate check on
bit 6 of the control byte, destuffing of the bytes between header and closing
flag, BCC2 check, and on success the copy of the payload and the toggle of the
expected-sequence bit. -/
def processFrame (expectedSeq : Nat) (frame : List Nat) : ReadResult :=
  if frame.length < 5 then
    { ret := -1, packet := none, sentFrame := rejFrame expectedSeq, newSeq := expectedSeq }
  else if Nat.xor (frame.getD 1 0) (frame.getD 2 0) ≠ frame.getD 3 0 then
    { ret := -1, packet := none, sentFrame := rejFrame expectedSeq, newSeq := expectedSeq }
  else if receivedSeqOf frame ≠ expectedSeq then
    { ret := -1, packet := none, sentFrame := rrFrame expectedSeq, newSeq := expectedSeq }
  else if (frameBody frame).length < 1 then
    { ret := -1, packet := none, sentFrame := rejFrame expectedSeq, newSeq := expectedSeq }
  else if bcc2 (frameBody frame).dropLast ≠
      (frameBody frame).getD ((frameBody frame).length - 1) 0 then
    { ret := -1, packet := none, sentFrame := rejFrame expectedSeq, newSeq := expectedSeq }
  else
    { ret := (((frameBody frame).length - 1 : Nat) : Int),
      packet := some (frameBody frame).dropLast,
      sentFrame := rrFrame expectedSeq, newSeq := Nat.xor expectedSeq 1 }

/-- Claim C2 (amended): a frame that reaches payload validation (length at
least 5, BCC1 correct, sequence bit equal to the expected one) is answered
with the REJ for the current expected sequence and return value -1, with no
payload delivered, exactly when its destuffed body is empty or BCC2 differs
from the XOR of the destuffed payload bytes; a trailing unpaired escape byte
0x7D is silently dropped by destuffing and is not by itself a reason for
rejection. -/
theorem llread_invalid_body_rejected (seq : Nat) (fr : List Nat)
    (h5 : 5 ≤ fr.length)
    (hb : Nat.xor (fr.getD 1 0) (fr.getD 2 0) = fr.getD 3 0)
    (hs : receivedSeqOf fr = seq)
    (hf : frameBody fr = [] ∨
      bcc2 (frameBody fr).dropLast ≠
        (frameBody fr).getD ((frameBody fr).length - 1) 0) :
    processFrame seq fr =
      { ret := -1, packet := none, sentFrame := rejFrame seq, newSeq := seq } := by
  rw [processFrame]
  rw [if_neg (by omega)]
  rw [if_neg fun hcon => hcon hb]
  rw [if_neg fun hcon => hcon hs]
  rcases hf with hf | hf
  · rw [if_pos (by simp [hf])]
  · by_cases hl : (frameBody fr).length < 1
    · rw [if_pos hl]
    · rw [if_neg hl, if_pos hf]

/-- Witness for `llread_invalid_body_rejected`: a frame whose BCC2 byte 0x00
does not match the XOR 0x21 of its payload 48 69 is rejected. -/
theorem llread_invalid_body_rejected_witness :
    processFrame 0 [0x7E, 0x03, 0x00, 0x03, 0x48, 0x69, 0x00, 0x7E] =
      { ret := -1, packet := none, sentFrame := rejFrame 0, newSeq := 0 } :=
  llread_invalid_body_rejected 0 [0x7E, 0x03, 0x00, 0x03, 0x48, 0x69, 0x00, 0x7E]
    (by decide) (by decide) (by decide) (Or.inr (by decide))

/-- Claim C2 counterexample: the frame 7E 03 00 03 00 7D 7E has a stuffed
region 00 7D ending in an unpaired escape byte — malformed by the claim — yet
`llread` destuffs it to the single byte 00, takes that byte as a BCC2 over an
empty payload, accepts the frame, replies RR (not REJ), and returns 0 (not
-1), delivering an empty payload. -/
theorem trailing_escape_frame_accepted :
    (([0x7E, 0x03, 0x00, 0x03, 0x00, 0x7D, 0x7E] : List Nat).drop 4).take 2
      = [0x00, 0x7D] ∧
    processFrame 0 [0x7E, 0x03, 0x00, 0x03, 0x00, 0x7D, 0x7E] =
      { ret := 0, packet := some [], sentFrame := rrFrame 0, newSeq := 1 } ∧
    rrFrame 0 ≠ rejFrame 0 := by
  decide

/-- Claim C3 evaluation at the failing input: the valid sequence-0 I-frame
7E 03 00 03 48 69 21 7E delivered twice starting from expected sequence 0 is
surfaced only once and answered with -1 the second time, but the two responses
differ: the accept sends RR1 (7E 01 85 84 7E) while the duplicate, computed
from the flipped expected sequence, sends RR0 (7E 01 05 04 7E) — not the same
RR, and not one the waiting sender accepts. -/
theorem duplicate_rr_differs_from_original :
    processFrame 0 [0x7E, 0x03, 0x00, 0x03, 0x48, 0x69, 0x21, 0x7E] =
      { ret := 2, packet := some [0x48, 0x69],
        sentFrame := [0x7E, 0x01, 0x85, 0x84, 0x7E], newSeq := 1 } ∧
    processFrame 1 [0x7E, 0x03, 0x00, 0x03, 0x48, 0x69, 0x21, 0x7E] =
      { ret := -1, packet := none,
        sentFrame := [0x7E, 0x01, 0x05, 0x04, 0x7E], newSeq := 1 } ∧
    ([0x7E, 0x01, 0x05, 0x04, 0x7E] : List Nat) ≠ [0x7E, 0x01, 0x85, 0x84, 0x7E] := by
  decide

/-- On a negative return `llread` neither writes the packet buffer nor moves
the expected-sequence bit; on a non-negative return it does both. Shared
helper for the claims about `llread` state effects. -/
theorem processFrame_effects (seq : Nat) (fr : List Nat) :
    ((processFrame seq fr).ret < 0 →
      (processFrame seq fr).packet = none ∧ (processFrame seq fr).newSeq = seq) ∧
    (0 ≤ (processFrame seq fr).ret →
      (∃ p, (processFrame seq fr).packet = some p) ∧
        (processFrame seq fr).newSeq = Nat.xor seq 1) := by
  rw [processFrame]
  repeat' split
  all_goals refine ⟨fun hneg => ?_, fun hpos => ?_⟩
  all_goals first
    | exact ⟨rfl, rfl⟩
    | exact ⟨⟨_, rfl⟩, rfl⟩
    | exact absurd hpos (by norm_num)
    | exact absurd hneg (by simp)

/-- Claim C10: whenever `llread`'s frame processing returns a negative value
the caller's packet buffer is untouched and the expected-sequence bit is
unchanged; the buffer is written and the bit toggled exactly on a non-negative
return. -/
theorem llread_error_no_effect (seq : Nat) (fr : List Nat) :
    ((processFrame seq fr).ret < 0 →
      (processFrame seq fr).packet = none ∧ (processFrame seq fr).newSeq = seq) ∧
    (0 ≤ (processFrame seq fr).ret →
      (∃ p, (processFrame seq fr).packet = some p) ∧
        (processFrame seq fr).newSeq = Nat.xor seq 1) :=
  processFrame_effects seq fr

/-- Witness for `llread_error_no_effect`: a too-short frame leaves the
expected-sequence bit 0 unchanged. -/
theorem llread_error_no_effect_witness :
    (processFrame 0 [0x7E, 0x7E]).packet = none ∧ (processFrame 0 [0x7E, 0x7E]).newSeq = 0 :=
  (llread_error_no_effect 0 [0x7E, 0x7E]).1 (by decide)

/-- Every frame a single `llwrite` call transmits is the I-frame for the
current sequence bit, and the sequence bit is toggled exactly when the call
returns non-negatively (an RR was accepted). Shared helper. -/
theorem llwriteAux_spec (buf : List Nat) (oracle : Nat → AckOutcome) (seq : Nat) :
    ∀ fuel retries,
      (∀ f ∈ (llwriteAux buf oracle seq retries fuel).sent, f = buildIFrame seq buf) ∧
      (0 ≤ (llwriteAux buf oracle seq retries fuel).ret →
        (llwriteAux buf oracle seq retries fuel).newSeq = Nat.xor seq 1) ∧
      ((llwriteAux buf oracle seq retries fuel).ret < 0 →
        (llwriteAux buf oracle seq retries fuel).newSeq = seq) := by
  intro fuel
  induction fuel with
  | zero =>
    intro retries
    refine ⟨fun f hf => ?_, fun hpos => ?_, fun _ => rfl⟩
    · rw [show (llwriteAux buf oracle seq retries 0).sent = [] from rfl] at hf
      cases hf
    · rw [show (llwriteAux buf oracle seq retries 0).ret = -1 from rfl] at hpos
      exact absurd hpos (by norm_num)
  | succ m ih =>
    intro retries
    cases ho : oracle retries with
    | rr =>
      refine ⟨?_, fun _ => ?_, fun hneg => ?_⟩
      · simp [llwriteAux, ho]
      · simp [llwriteAux, ho]
      · rw [llwriteAux.eq_def] at hneg
        simp [ho] at hneg
        exact absurd hneg (by simp)
    | rej =>
      have hstep : llwriteAux buf oracle seq retries (m + 1) =
          { ret := (llwriteAux buf oracle seq (retries + 1) m).ret,
            newSeq := (llwriteAux buf oracle seq (retries + 1) m).newSeq,
            sent := buildIFrame seq buf ::
              (llwriteAux buf oracle seq (retries + 1) m).sent } := by
        rw [llwriteAux.eq_def]
        simp [ho]
      rw [hstep]
      refine ⟨?_, (ih (retries + 1)).2.1, (ih (retries + 1)).2.2⟩
      intro f hf
      rcases List.mem_cons.mp hf with hf | hf
      · exact hf
      · exact (ih (retries + 1)).1 f hf
    | timeout =>
      have hstep : llwriteAux buf oracle seq retries (m + 1) =
          { ret := (llwriteAux buf oracle seq (retries + 1) m).ret,
            newSeq := (llwriteAux buf oracle seq (retries + 1) m).newSeq,
            sent := buildIFrame seq buf ::
              (llwriteAux buf oracle seq (retries + 1) m).sent } := by
        rw [llwriteAux.eq_def]
        simp [ho]
      rw [hstep]
      refine ⟨?_, (ih (retries + 1)).2.1, (ih (retries + 1)).2.2⟩
      intro f hf
      rcases List.mem_cons.mp hf with hf | hf
      · exact hf
      · exact (ih (retries + 1)).1 f hf

/-- The byte at index 2 of the built I-frame is its control byte. -/
theorem buildIFrame_getD_two (s : Nat) (buf : List Nat) :
    (buildIFrame s buf).getD 2 0 = iControl s := rfl

/-- Claim C4: within one `llwrite` call every transmitted I-frame carries the
control byte of the current sender bit Sₛ; the bit is toggled exactly on a
non-negative return (an accepted RR) and kept on a negative return, in
particular when no RR is ever accepted (only REJs or timeouts); hence the
frames of the next successful call carry the flipped control byte. Likewise
the receiver bit Sᵣ is toggled exactly when `llread` accepts and delivers a
frame. -/
theorem sequence_bit_alternation (n : Nat) (buf : List Nat)
    (oracle oracle2 : Nat → AckOutcome) (seq : Nat) :
    (∀ f ∈ (llwriteModel n buf oracle seq).sent, f = buildIFrame seq buf) ∧
    (0 ≤ (llwriteModel n buf oracle seq).ret →
      (llwriteModel n buf oracle seq).newSeq = Nat.xor seq 1) ∧
    ((llwriteModel n buf oracle seq).ret < 0 →
      (llwriteModel n buf oracle seq).newSeq = seq) ∧
    ((∀ k, oracle k ≠ AckOutcome.rr) →
      (llwriteModel n buf oracle seq).newSeq = seq) ∧
    (seq ≤ 1 → 0 ≤ (llwriteModel n buf oracle seq).ret →
      ∀ f ∈ (llwriteModel n buf oracle2 (llwriteModel n buf oracle seq).newSeq).sent,
        f.getD 2 0 ≠ (buildIFrame seq buf).getD 2 0) ∧
    (∀ sq fr, 0 ≤ (processFrame sq fr).ret →
      (processFrame sq fr).newSeq = Nat.xor sq 1) ∧
    (∀ sq fr, (processFrame sq fr).ret < 0 → (processFrame sq fr).newSeq = sq) := by
  refine ⟨(llwriteAux_spec buf oracle seq n 0).1,
    (llwriteAux_spec buf oracle seq n 0).2.1,
    (llwriteAux_spec buf oracle seq n 0).2.2, ?_, ?_,
    fun sq fr h => ((processFrame_effects sq fr).2 h).2,
    fun sq fr h => ((processFrame_effects sq fr).1 h).2⟩
  · intro hno
    rw [llwriteModel, llwriteAux_no_rr buf oracle seq hno n 0]
  · intro hseq hpos f hf
    have h1 := (llwriteAux_spec buf oracle2 ((llwriteModel n buf oracle seq).newSeq) n 0).1 f hf
    have h2 : (llwriteModel n buf oracle seq).newSeq = Nat.xor seq 1 :=
      (llwriteAux_spec buf oracle seq n 0).2.1 hpos
    rw [h1, buildIFrame_getD_two, buildIFrame_getD_two, h2]
    have : seq = 0 ∨ seq = 1 := by omega
    rcases this with h | h
    · subst h
      decide
    · subst h
      decide

/-- Witness for `sequence_bit_alternation`: with an immediately accepted RR,
one call from sequence bit 0 toggles the bit to 1. -/
theorem sequence_bit_alternation_witness :
    (llwriteModel 1 [0x05] (fun _ => AckOutcome.rr) 0).newSeq = Nat.xor 0 1 :=
  (sequence_bit_alternation 1 [0x05] (fun _ => AckOutcome.rr)
    (fun _ => AckOutcome.rr) 0).2.1 (by decide)

/-- The frame-capture loop at the top of `llread`: bytes before the first
flag are discarded; the first flag starts the capture with `idx = 0` and
stores the flag; further bytes are stored while `idx < 2048` (on overflow the
capture is abandoned and restarted); a flag seen while in a frame is stored
and ends the capture. `none` means the input was exhausted with no complete
frame, i.e. the C loop would block waiting for more bytes. -/
def captureLoop : List Nat → Bool → List Nat → Option (List Nat × List Nat)
  | [], _, _ => none
  | b :: rest, inFrame, acc =>
    if b = FLAG then
      if inFrame then some (acc ++ [b], rest)
      else captureLoop rest true [b]
    else if inFrame then
      if acc.length < 2048 then captureLoop rest true (acc ++ [b])
      else captureLoop rest false []
    else captureLoop rest false acc

/-- Frame capture starting outside a frame, as `llread` does on entry. -/
def capture (input : List Nat) : Option (List Nat × List Nat) :=
  captureLoop input false []

/-- One `llread` call on a byte stream: capture a frame between two flags,
then validate and answer it; `none` when the stream ends before a complete
frame is captured (the C code blocks). -/
def llreadModel (seq : Nat) (input : List Nat) : Option (ReadResult × List Nat) :=
  (capture input).map fun p => (processFrame seq p.1, p.2)

/-- While inside a frame, the capture loop stores flag-free bytes until the
closing flag, which it also stores. -/
theorem captureLoop_collect (t : List Nat) :
    ∀ (mid acc : List Nat), (∀ b ∈ mid, b ≠ FLAG) → acc.length + mid.length ≤ 2047 →
      captureLoop (mid ++ FLAG :: t) true acc = some (acc ++ mid ++ [FLAG], t) := by
  intro mid
  induction mid with
  | nil =>
    intro acc _ _
    simp [captureLoop]
  | cons b mid ih =>
    intro acc hb hlen
    rw [List.length_cons] at hlen
    have hbne : b ≠ FLAG := hb b (by simp)
    have hacc : acc.length < 2048 := by omega
    rw [List.cons_append]
    have hstep : captureLoop (b :: (mid ++ FLAG :: t)) true acc
        = captureLoop (mid ++ FLAG :: t) true (acc ++ [b]) := by
      simp [captureLoop, hbne, hacc]
    rw [hstep, ih (acc ++ [b]) (fun x hx => hb x (by simp [hx])) (by simp; omega)]
    simp

/-- A full frame at the head of the stream — opening flag, flag-free interior,
closing flag — is captured exactly, leaving the rest of the stream. -/
theorem capture_frame (mid t : List Nat) (hb : ∀ b ∈ mid, b ≠ FLAG)
    (hlen : mid.length ≤ 2000) :
    capture (FLAG :: mid ++ FLAG :: t) = some (FLAG :: (mid ++ [FLAG]), t) := by
  have h1 : capture (FLAG :: mid ++ FLAG :: t)
      = captureLoop (mid ++ FLAG :: t) true [FLAG] := rfl
  rw [h1, captureLoop_collect t mid [FLAG] hb (by simp; omega)]
  rfl

/-- Claim C8 (amended): `llread` captures a complete framed byte sequence
between two flag bytes and leaves the remainder of the stream untouched; but
when two consecutive frames share a single flag byte, that flag is consumed as
the first frame's terminator, the second frame's body is discarded as
inter-frame garbage, and its closing flag only opens a new capture on which
`llread` blocks — the second frame is not accepted. -/
theorem llread_framing (seq : Nat) (mid t : List Nat)
    (hb : ∀ b ∈ mid, b ≠ FLAG) (hlen : mid.length ≤ 2000) :
    llreadModel seq (FLAG :: mid ++ FLAG :: t)
      = some (processFrame seq (FLAG :: (mid ++ [FLAG])), t) ∧
    llreadModel 1 [0x03, 0x40, 0x43, 0x48, 0x69, 0x21, 0x7E] = none := by
  constructor
  · rw [llreadModel, capture_frame mid t hb hlen]
    rfl
  · decide

/-- Witness for `llread_framing`: the clean sequence-0 I-frame for payload
48 69 followed by trailing bytes is captured and accepted. -/
theorem llread_framing_witness :
    llreadModel 0 (FLAG :: [0x03, 0x00, 0x03, 0x48, 0x69, 0x21] ++ FLAG :: [0x55])
      = some (processFrame 0 (FLAG :: ([0x03, 0x00, 0x03, 0x48, 0x69, 0x21] ++ [FLAG])),
          [0x55]) :=
  (llread_framing 0 [0x03, 0x00, 0x03, 0x48, 0x69, 0x21] [0x55]
    (by decide) (by decide)).1

/-- Claim C8 counterexample: a stream holding two back-to-back valid I-frames
(sequence 0 then sequence 1) separated by one shared flag byte. The first
`llread` accepts the first frame and consumes the shared flag; the second
`llread`, running on the remainder, discards the second frame's bytes while
hunting for an opening flag and blocks — only the first of the two frames is
accepted. -/
theorem shared_flag_second_frame_lost :
    llreadModel 0 [0x7E, 0x03, 0x00, 0x03, 0x48, 0x69, 0x21, 0x7E,
        0x03, 0x40, 0x43, 0x48, 0x69, 0x21, 0x7E] =
      some ({ ret := 2, packet := some [0x48, 0x69],
              sentFrame := [0x7E, 0x01, 0x85, 0x84, 0x7E], newSeq := 1 },
            [0x03, 0x40, 0x43, 0x48, 0x69, 0x21, 0x7E]) ∧
    llreadModel 1 [0x03, 0x40, 0x43, 0x48, 0x69, 0x21, 0x7E] = none := by
  decide

/-- The do-while loop of `buildControlPacket` in application_layer.c that
collects the bytes of the file size least-significant first:
`sizeBytes[num++] = t & 0xFF; t >>= 8;` repeated while `t > 0`. `fuel` bounds
the iterations; any fuel above the number of base-256 digits is enough. -/
def sizeBytesLEGo : Nat → Nat → List Nat
  | _, 0 => []
  | n, fuel + 1 => (n % 256) :: (if n / 256 > 0 then sizeBytesLEGo (n / 256) fuel else [])

/-- The collected file-size bytes, least-significant first; the do-while runs
at least once, so 0 encodes as the single byte 00. -/
def sizeBytesLE (n : Nat) : List Nat := sizeBytesLEGo n (n + 1)

/-- `buildControlPacket`: control field, the file-size TLV whose value bytes
are written in reverse collection order (most-significant first), then the
filename TLV with the name truncated to 255 bytes. -/
def buildControlPacket (c : Nat) (filename : List Nat) (fileSize : Nat) : List Nat :=
  [c, 0x00, (sizeBytesLE fileSize).length] ++ (sizeBytesLE fileSize).reverse
    ++ [0x01, min filename.length 255] ++ filename.take (min filename.length 255)

/-- The TLV loop of `parseControlPacket`: read a type and a length byte,
reject when the value would run past the packet, fold file-size bytes with
`(*fileSize << 8) | byte`, overwrite the filename on a name TLV, skip unknown
types. A lone trailing type byte makes the C code read past the packet;
modelled as `none`. `fuel` only bounds the recursion; the packet length plus
one is always enough since each iteration consumes at least two bytes. -/
def parseLoopGo : Nat → List Nat → Nat → List Nat → Option (Nat × List Nat)
  | 0, _, _, _ => none
  | _ + 1, [], fs, fn => some (fs, fn)
  | _ + 1, [_], _, _ => none
  | fuel + 1, t :: l :: rest, fs, fn =>
    if l ≤ rest.length then
      if t = 0 then
        parseLoopGo fuel (rest.drop l)
          ((rest.take l).foldl (fun a b => (a <<< 8) ||| b) fs) fn
      else if t = 1 then
        parseLoopGo fuel (rest.drop l) fs (rest.take l)
      else
        parseLoopGo fuel (rest.drop l) fs fn
    else none

/-- `parseControlPacket`: skip the control field at index 0, then run the TLV
loop with file size seeded 0 and empty filename. -/
def parseControlPacket (p : List Nat) : Option (Nat × List Nat) :=
  parseLoopGo (p.length + 1) (p.drop 1) 0 []

/-- Shifting left by one byte and or-ing in a byte below 256 is base-256
accumulation. -/
theorem shift_or_small (a b : Nat) (hb : b < 256) :
    (a <<< 8) ||| b = a * 256 + b := by
  rw [Nat.shiftLeft_eq, Nat.mul_comm a (2 ^ 8),
    ← Nat.mul_add_lt_is_or (show b < 2 ^ 8 by omega) a]

/-- Folding the parser's accumulator over the reversed (most-significant
first) size bytes recovers the number. -/
theorem sizeBytesLEGo_decode :
    ∀ fuel n acc, n < fuel →
      ((sizeBytesLEGo n fuel).reverse).foldl (fun a b => (a <<< 8) ||| b) acc
        = acc * 256 ^ (sizeBytesLEGo n fuel).length + n := by
  intro fuel
  induction fuel with
  | zero => intro n acc h; omega
  | succ m ih =>
    intro n acc h
    by_cases hd : n / 256 > 0
    · have hrec : sizeBytesLEGo n (m + 1) = (n % 256) :: sizeBytesLEGo (n / 256) m := by
        simp [sizeBytesLEGo, hd]
      have hsub : n / 256 < m := by
        have h1 : 0 < n := by omega
        have h2 : n / 256 < n := Nat.div_lt_self h1 (by norm_num)
        omega
      rw [hrec, List.reverse_cons, List.foldl_append, ih (n / 256) acc hsub]
      simp only [List.foldl_cons, List.foldl_nil]
      rw [shift_or_small _ _ (Nat.mod_lt n (by norm_num))]
      rw [List.length_cons, pow_succ, ← Nat.mul_assoc]
      omega
    · have hrec : sizeBytesLEGo n (m + 1) = [n % 256] := by
        simp [sizeBytesLEGo, hd]
      rw [hrec]
      simp only [List.reverse_cons, List.reverse_nil, List.nil_append,
        List.foldl_cons, List.foldl_nil, List.length_cons, List.length_nil]
      rw [shift_or_small _ _ (Nat.mod_lt n (by norm_num))]
      have hn : n % 256 = n := Nat.mod_eq_of_lt (by omega)
      rw [hn, pow_one]

/-- The TLV loop does not depend on the fuel as long as the fuel exceeds the
number of remaining bytes. -/
theorem parseLoopGo_fuel :
    ∀ fuel fuel2 (l : List Nat) fs fn, l.length < fuel → l.length < fuel2 →
      parseLoopGo fuel l fs fn = parseLoopGo fuel2 l fs fn := by
  intro fuel
  induction fuel with
  | zero => intro fuel2 l fs fn h1 _; exact absurd h1 (by omega)
  | succ m ih =>
    intro fuel2 l fs fn h1 h2
    cases fuel2 with
    | zero => exact absurd h2 (by omega)
    | succ m2 =>
      match l with
      | [] => rfl
      | [x] => rfl
      | t :: ln :: rest =>
        simp only [parseLoopGo]
        by_cases hl : ln ≤ rest.length
        · have hlen : (rest.drop ln).length < m := by
            simp only [List.length_cons] at h1
            simp [List.length_drop]
            omega
          have hlen2 : (rest.drop ln).length < m2 := by
            simp only [List.length_cons] at h2
            simp [List.length_drop]
            omega
          by_cases ht : t = 0
          · simp [hl, ht, ih m2 _ _ _ hlen hlen2]
          · by_cases ht1 : t = 1
            · simp [hl, ht, ht1, ih m2 _ _ _ hlen hlen2]
            · simp [hl, ht, ht1, ih m2 _ _ _ hlen hlen2]
        · simp [hl]

/-- Parsing a packet body made of a file-size TLV (value bytes `rev`) followed
by a filename TLV yields the folded file size and the name. -/
theorem parseLoopGo_tlv_pair (rev name : List Nat) (fs0 : Nat)
    (hfold : rev.foldl (fun a b => (a <<< 8) ||| b) 0 = fs0) :
    ∀ fuel, rev.length + name.length + 4 < fuel →
      parseLoopGo fuel (0 :: rev.length :: (rev ++ 1 :: name.length :: name)) 0 []
        = some (fs0, name) := by
  intro fuel hfuel
  match fuel, hfuel with
  | f + 1, hfuel =>
    have hstep1 : parseLoopGo (f + 1)
        (0 :: rev.length :: (rev ++ 1 :: name.length :: name)) 0 []
        = parseLoopGo f (1 :: name.length :: name)
            (rev.foldl (fun a b => (a <<< 8) ||| b) 0) [] := by
      simp only [parseLoopGo]
      simp [List.take_left, List.drop_left]
    rw [hstep1, hfold]
    match f, (by omega : 2 < f) with
    | g + 1, _ =>
      have hstep2 : parseLoopGo (g + 1) (1 :: name.length :: name) fs0 []
          = parseLoopGo g [] fs0 name := by
        simp only [parseLoopGo]
        simp [List.take_length, List.drop_length]
      rw [hstep2]
      match g, (by omega : 0 < g) with
      | g2 + 1, _ => rfl

/-- Claim C9: for every file size and every filename of at most 255 bytes,
`parseControlPacket` applied to the packet built by `buildControlPacket`
recovers exactly that size and filename; the size value bytes appear on the
wire most-significant first — big-endian, the source comment saying
"little-endian" notwithstanding — as the concrete packet for size 0x1234
shows. -/
theorem control_packet_roundtrip (c fs : Nat) (filename : List Nat)
    (h : filename.length ≤ 255) :
    parseControlPacket (buildControlPacket c filename fs) = some (fs, filename) ∧
    buildControlPacket 2 [] 4660 = [2, 0, 2, 0x12, 0x34, 1, 0] := by
  constructor
  · have hmin : min filename.length 255 = filename.length := Nat.min_eq_left h
    have hpack : buildControlPacket c filename fs
        = c :: 0 :: (sizeBytesLE fs).reverse.length ::
          ((sizeBytesLE fs).reverse ++ 1 :: filename.length :: filename) := by
      rw [buildControlPacket, hmin, List.take_length, List.length_reverse]
      simp
    have hfold : (sizeBytesLE fs).reverse.foldl (fun a b => (a <<< 8) ||| b) 0 = fs := by
      rw [sizeBytesLE, sizeBytesLEGo_decode (fs + 1) fs 0 (by omega)]
      simp
    rw [parseControlPacket, hpack]
    have hdrop : (c :: 0 :: (sizeBytesLE fs).reverse.length ::
        ((sizeBytesLE fs).reverse ++ 1 :: filename.length :: filename)).drop 1
        = 0 :: (sizeBytesLE fs).reverse.length ::
          ((sizeBytesLE fs).reverse ++ 1 :: filename.length :: filename) := rfl
    rw [hdrop]
    exact parseLoopGo_tlv_pair (sizeBytesLE fs).reverse filename fs hfold _
      (by simp; omega)
  · rfl

/-- Witness for `control_packet_roundtrip`: size 4660 and name "a.t" survive
the round trip. -/
theorem control_packet_roundtrip_witness :
    parseControlPacket (buildControlPacket 2 [0x61, 0x2E, 0x74] 4660)
      = some (4660, [0x61, 0x2E, 0x74]) :=
  (control_packet_roundtrip 2 4660 [0x61, 0x2E, 0x74] (by decide)).1

end Rcom
